import Mathlib

/-!
Verification of the ndjson-stream decoding engine and its consumption
adapters, shallowly embedded from the Rust source.

Bytes are modelled as `List Nat`, decoded records by an abstract type `T`,
decode errors by an abstract type `J`, and the external decode collaborator
(serde_json) by a function `decode : List Nat → Except J T`.
-/

namespace NdjsonStream

/-- `EmptyLineHandling` from `src/config.rs`: controls how the parser deals
with lines that contain no JSON values. -/
inductive EmptyLineHandling where
  | ParseAlways
  | IgnoreEmpty
  | IgnoreBlank
deriving DecidableEq, Repr

/-- `NdjsonConfig` from `src/config.rs`. -/
structure NdjsonConfig where
  empty_line_handling : EmptyLineHandling
  parse_rest : Bool
deriving DecidableEq, Repr

/-- The `Default` derive on `NdjsonConfig`: the `#[default]` variant of the
enum is `ParseAlways`, and `bool::default()` is `false`. -/
def NdjsonConfig.default : NdjsonConfig :=
  ⟨EmptyLineHandling.ParseAlways, false⟩

/-- `NdjsonConfig::with_empty_line_handling` from `src/config.rs`. -/
def NdjsonConfig.with_empty_line_handling (c : NdjsonConfig)
    (empty_line_handling : EmptyLineHandling) : NdjsonConfig :=
  { c with empty_line_handling := empty_line_handling }

/-- `NdjsonConfig::with_parse_rest` from `src/config.rs`. -/
def NdjsonConfig.with_parse_rest (c : NdjsonConfig) (parse_rest : Bool) :
    NdjsonConfig :=
  { c with parse_rest := parse_rest }

/-- `index_of` from `src/engine.rs`: the index of the first occurrence of
`search` in `data`, if any. -/
def index_of (data : List Nat) (search : Nat) : Option Nat :=
  match data with
  | [] => none
  | x :: rest =>
      if x = search then some 0
      else (index_of rest search).map (· + 1)

/-- `NEW_LINE` from `src/engine.rs` (`b'\n'`). -/
def NEW_LINE : Nat := 10

/-- Whether a byte is a UTF-8 continuation byte (`0x80..=0xBF`). -/
def contByte (b : Nat) : Bool := 128 ≤ b && b ≤ 191

/-- `str::from_utf8`, modelled as a decoder from bytes to the list of
Unicode scalar values, rejecting exactly the byte sequences Rust rejects
(overlong encodings, surrogates, out-of-range values, truncated
sequences). -/
def utf8Decode : List Nat → Option (List Nat)
  | [] => some []
  | b0 :: rest =>
      if b0 ≤ 127 then (utf8Decode rest).map (b0 :: ·)
      else if 194 ≤ b0 && b0 ≤ 223 then
        match rest with
        | b1 :: r =>
            if contByte b1 then
              (utf8Decode r).map (((b0 - 192) * 64 + (b1 - 128)) :: ·)
            else none
        | [] => none
      else if 224 ≤ b0 && b0 ≤ 239 then
        match rest with
        | b1 :: b2 :: r =>
            if (if b0 = 224 then 160 ≤ b1 && b1 ≤ 191
                else if b0 = 237 then 128 ≤ b1 && b1 ≤ 159
                else contByte b1) && contByte b2 then
              (utf8Decode r).map
                (((b0 - 224) * 4096 + (b1 - 128) * 64 + (b2 - 128)) :: ·)
            else none
        | _ => none
      else if 240 ≤ b0 && b0 ≤ 244 then
        match rest with
        | b1 :: b2 :: b3 :: r =>
            if (if b0 = 240 then 144 ≤ b1 && b1 ≤ 191
                else if b0 = 244 then 128 ≤ b1 && b1 ≤ 143
                else contByte b1) && contByte b2 && contByte b3 then
              (utf8Decode r).map
                (((b0 - 240) * 262144 + (b1 - 128) * 4096 + (b2 - 128) * 64
                  + (b3 - 128)) :: ·)
            else none
        | _ => none
      else none

/-- `char::is_whitespace`: membership in the Unicode `White_Space`
property, on scalar values. -/
def isWhitespaceChar (c : Nat) : Bool :=
  (9 ≤ c && c ≤ 13) || c = 32 || c = 133 || c = 160 || c = 5760 ||
  (8192 ≤ c && c ≤ 8202) || c = 8232 || c = 8233 || c = 8239 ||
  c = 8287 || c = 12288

/-- `is_blank` from `src/engine.rs`: `string.chars().all(char::is_whitespace)`. -/
def is_blank (chars : List Nat) : Bool :=
  chars.all isWhitespaceChar

/-- `str::from_utf8(bytes).is_ok_and(is_blank)` from `parse_line` in
`src/engine.rs`. -/
def isBlankBytes (bytes : List Nat) : Bool :=
  match utf8Decode bytes with
  | some chars => is_blank chars
  | none => false

/-- The `should_ignore` computation of `parse_line` in `src/engine.rs`. -/
def shouldIgnore (empty_line_handling : EmptyLineHandling)
    (bytes : List Nat) : Bool :=
  match empty_line_handling with
  | EmptyLineHandling.ParseAlways => false
  | EmptyLineHandling.IgnoreEmpty => bytes.isEmpty || bytes == [13]
  | EmptyLineHandling.IgnoreBlank => isBlankBytes bytes

/-- `parse_line` from `src/engine.rs`, with the serde_json call abstracted
as `decode`. -/
def parse_line {T J : Type} (decode : List Nat → Except J T)
    (bytes : List Nat) (empty_line_handling : EmptyLineHandling) :
    Option (Except J T) :=
  if shouldIgnore empty_line_handling bytes then none
  else some (decode bytes)

/-- `NdjsonEngine` from `src/engine.rs`: the input accumulation buffer
(`in_queue`), the output queue of decode outcomes (`out_queue`) and the
configuration. -/
structure NdjsonEngine (T J : Type) where
  in_queue : List Nat
  out_queue : List (Except J T)
  config : NdjsonConfig

/-- `NdjsonEngine::with_config` from `src/engine.rs`. -/
def NdjsonEngine.with_config (T J : Type) (config : NdjsonConfig) :
    NdjsonEngine T J :=
  ⟨[], [], config⟩

/-- `NdjsonEngine::new` from `src/engine.rs`: default configuration. -/
def NdjsonEngine.new (T J : Type) : NdjsonEngine T J :=
  NdjsonEngine.with_config T J NdjsonConfig.default

/-- `NdjsonEngine::pop` from `src/engine.rs`: dequeue the oldest outcome,
returning it together with the updated engine. -/
def NdjsonEngine.pop {T J : Type} (e : NdjsonEngine T J) :
    Option (Except J T) × NdjsonEngine T J :=
  match e.out_queue with
  | [] => (none, e)
  | r :: rest => (some r, { e with out_queue := rest })

/-- The loop of `NdjsonEngine::input` from `src/engine.rs`, with the engine
state threaded explicitly: repeatedly finds the next newline, forms the
line candidate (the buffered rest plus the bytes up to the newline), feeds
it through `parse_line`, clears the buffer, and continues after the
newline; the bytes after the last newline extend the buffer. -/
def inputGo {T J : Type} (decode : List Nat → Except J T)
    (cfg : NdjsonConfig) (inQ : List Nat) (outQ : List (Except J T))
    (data : List Nat) : List Nat × List (Except J T) :=
  match h : index_of data NEW_LINE with
  | some newline_idx =>
      let data_until_split := data.take newline_idx
      let next_item_bytes :=
        if inQ.isEmpty then data_until_split else inQ ++ data_until_split
      let outQ' :=
        match parse_line decode next_item_bytes cfg.empty_line_handling with
        | some item => outQ ++ [item]
        | none => outQ
      inputGo decode cfg [] outQ' (data.drop (newline_idx + 1))
  | none => (inQ ++ data, outQ)
termination_by data.length
decreasing_by
  simp only [List.length_drop]
  cases data with
  | nil => simp [index_of] at h
  | cons x rest => simp only [List.length_cons]; omega

/-- `NdjsonEngine::input` from `src/engine.rs`. -/
def NdjsonEngine.input {T J : Type} (decode : List Nat → Except J T)
    (e : NdjsonEngine T J) (data : List Nat) : NdjsonEngine T J :=
  let r := inputGo decode e.config e.in_queue e.out_queue data
  { e with in_queue := r.1, out_queue := r.2 }

/-- The downgrade of the empty-line policy performed inside
`NdjsonEngine::finalize` (`ParseAlways` becomes `IgnoreEmpty`). -/
def downgradePolicy : EmptyLineHandling → EmptyLineHandling
  | EmptyLineHandling.ParseAlways => EmptyLineHandling.IgnoreEmpty
  | h => h

/-- `NdjsonEngine::finalize` from `src/engine.rs`: if `parse_rest` is set,
feed the buffered rest through `parse_line` under the downgraded policy;
in any case clear the accumulation buffer. -/
def NdjsonEngine.finalize {T J : Type} (decode : List Nat → Except J T)
    (e : NdjsonEngine T J) : NdjsonEngine T J :=
  let e' :=
    if e.config.parse_rest then
      match parse_line decode e.in_queue
          (downgradePolicy e.config.empty_line_handling) with
      | some item => { e with out_queue := e.out_queue ++ [item] }
      | none => e
    else e
  { e' with in_queue := [] }

/-- The effect of one byte on the engine's buffer and queue: a newline
completes the current line candidate and feeds it through `parse_line`;
any other byte is appended to the accumulation buffer. Used to
characterise `input` as a left fold. -/
def stepByte {T J : Type} (decode : List Nat → Except J T)
    (cfg : NdjsonConfig) (st : List Nat × List (Except J T)) (b : Nat) :
    List Nat × List (Except J T) :=
  if b = NEW_LINE then
    match parse_line decode st.1 cfg.empty_line_handling with
    | some item => ([], st.2 ++ [item])
    | none => ([], st.2)
  else (st.1 ++ [b], st.2)

/-- `FallibleNdjsonError` from `src/fallible.rs`: either an upstream input
error of type `E` or a decode (content) error of type `J`. -/
inductive FallibleNdjsonError (E J : Type) where
  | InputError (error : E)
  | JsonError (error : J)
deriving DecidableEq

/-- The translation of an engine outcome performed by both
`FallibleNdjsonIter::next` (`src/driver/iter.rs`) and
`FallibleNdjsonStream::poll_next` (`src/driver/streams.rs`): a decode
error is wrapped in `JsonError`. -/
def translateOutcome {T J E : Type} (r : Except J T) :
    Except (FallibleNdjsonError E J) T :=
  match r with
  | Except.ok v => Except.ok v
  | Except.error e => Except.error (FallibleNdjsonError.JsonError e)

/-- One call to `FallibleNdjsonIter::next` from `src/driver/iter.rs`.

The wrapped upstream iterator is modelled by `responses`, the list of
answers it gives to successive `next()` calls (`some item`, or `none` for
the exhaustion signal — later entries model a non-idempotent upstream that
yields again after exhausting), by `calls`, the number of times it has
been queried, and by `dn`, the `done` flag of the `Fuse` combinator the
adapter wraps it in. Returns the produced item together with the updated
adapter state. If the model runs out of scripted responses the upstream
is treated as exhausted. -/
def fallibleIterNext {T J E : Type} (decode : List Nat → Except J T)
    (eng : NdjsonEngine T J)
    (responses : List (Option (Except E (List Nat)))) (calls : Nat)
    (dn : Bool) :
    Option (Except (FallibleNdjsonError E J) T) ×
      NdjsonEngine T J × List (Option (Except E (List Nat))) × Nat × Bool :=
  match eng.pop with
  | (some result, eng') =>
      (some (translateOutcome result), eng', responses, calls, dn)
  | (none, eng') =>
      if dn then
        let engF := eng'.finalize decode
        match engF.pop with
        | (some r, engF') => (some (translateOutcome r), engF', responses, calls, true)
        | (none, engF') => (none, engF', responses, calls, true)
      else
        match responses with
        | [] =>
            let engF := eng'.finalize decode
            match engF.pop with
            | (some r, engF') => (some (translateOutcome r), engF', [], calls + 1, true)
            | (none, engF') => (none, engF', [], calls + 1, true)
        | none :: rest =>
            let engF := eng'.finalize decode
            match engF.pop with
            | (some r, engF') => (some (translateOutcome r), engF', rest, calls + 1, true)
            | (none, engF') => (none, engF', rest, calls + 1, true)
        | some (Except.error e) :: rest =>
            (some (Except.error (FallibleNdjsonError.InputError e)), eng',
              rest, calls + 1, dn)
        | some (Except.ok bytes) :: rest =>
            fallibleIterNext decode (eng'.input decode bytes) rest
              (calls + 1) dn
termination_by responses.length
decreasing_by
  simp only [List.length_cons]
  omega

/-- One call to `FallibleNdjsonStream::poll_next` from
`src/driver/streams.rs`, with the upstream stream modelled as the list of
items it yields before completing (`Poll::Pending` affects only
scheduling, never the value sequence, so it is not modelled). Note the
source returns `Poll::Ready(None)` on upstream completion without calling
`finalize` (its body carries a `TODO handle rest` comment). -/
def falliblePollNext {T J E : Type} (decode : List Nat → Except J T)
    (eng : NdjsonEngine T J) (items : List (Except E (List Nat))) :
    Option (Except (FallibleNdjsonError E J) T) ×
      NdjsonEngine T J × List (Except E (List Nat)) :=
  match eng.pop with
  | (some result, eng') => (some (translateOutcome result), eng', items)
  | (none, eng') =>
      match items with
      | [] => (none, eng', [])
      | Except.error e :: rest =>
          (some (Except.error (FallibleNdjsonError.InputError e)), eng', rest)
      | Except.ok bytes :: rest =>
          falliblePollNext decode (eng'.input decode bytes) rest
termination_by items.length
decreasing_by
  simp only [List.length_cons]
  omega

/-- A concrete decode collaborator used in witnesses: decodes the byte
string "4" to the number 4 and fails with error code 0 on everything
else. -/
def decodeDigit : List Nat → Except Nat Nat := fun bytes =>
  if bytes = [52] then Except.ok 4 else Except.error 0

/-! ### Basic lemmas about `index_of` and the byte fold -/

/-- The index returned by `index_of` is within bounds. -/
theorem index_of_lt_length :
    ∀ (data : List Nat) (s i : Nat), index_of data s = some i →
    i < data.length := by
  intro data
  induction data with
  | nil => intro s i h; simp [index_of] at h
  | cons x rest ih =>
      intro s i h
      simp only [index_of] at h
      by_cases hx : x = s
      · rw [if_pos hx] at h
        injection h with h
        simp only [List.length_cons]
        omega
      · simp [hx] at h
        obtain ⟨j, hj, rfl⟩ := h
        have := ih s j hj
        simp only [List.length_cons]
        omega

theorem index_of_none {s : Nat} :
    ∀ {data : List Nat}, index_of data s = none → s ∉ data := by
  intro data
  induction data with
  | nil => intro _ h; simp at h
  | cons x rest ih =>
      intro h hmem
      simp only [index_of] at h
      by_cases hx : x = s
      · rw [if_pos hx] at h; exact Option.noConfusion h
      · rw [if_neg hx] at h
        rcases List.mem_cons.mp hmem with hs | hs
        · exact hx hs.symm
        · exact ih (Option.map_eq_none.mp h) hs

theorem index_of_some_decomp {s : Nat} :
    ∀ {data : List Nat} {i : Nat}, index_of data s = some i →
    data = data.take i ++ s :: data.drop (i + 1) ∧ s ∉ data.take i := by
  intro data
  induction data with
  | nil => intro i h; simp [index_of] at h
  | cons x rest ih =>
      intro i h
      simp only [index_of] at h
      by_cases hx : x = s
      · rw [if_pos hx] at h
        injection h with h
        subst hx
        cases h
        simp
      · rw [if_neg hx] at h
        rcases Option.map_eq_some.mp h with ⟨j, hj, hji⟩
        cases hji
        obtain ⟨hdec, hnot⟩ := ih hj
        constructor
        · simpa using congrArg (x :: ·) hdec
        · intro hmem
          rcases List.mem_cons.mp (by simpa using hmem) with hs | hs
          · exact hx hs.symm
          · exact hnot hs

theorem foldl_stepByte_no_newline {T J : Type}
    (decode : List Nat → Except J T) (cfg : NdjsonConfig) :
    ∀ (seg : List Nat) (inQ : List Nat) (outQ : List (Except J T)),
    NEW_LINE ∉ seg →
    seg.foldl (stepByte decode cfg) (inQ, outQ) = (inQ ++ seg, outQ) := by
  intro seg
  induction seg with
  | nil => intro inQ outQ _; simp
  | cons b rest ih =>
      intro inQ outQ hmem
      have hb : b ≠ NEW_LINE := fun h => hmem (h ▸ List.mem_cons_self b rest)
      have hrest : NEW_LINE ∉ rest := fun h => hmem (List.mem_cons_of_mem b h)
      simp only [List.foldl_cons, stepByte, if_neg (fun h => hb h)]
      rw [ih (inQ ++ [b]) outQ hrest]
      simp

theorem foldl_stepByte_preserves_no_newline {T J : Type}
    (decode : List Nat → Except J T) (cfg : NdjsonConfig) :
    ∀ (data : List Nat) (st : List Nat × List (Except J T)),
    NEW_LINE ∉ st.1 →
    NEW_LINE ∉ (data.foldl (stepByte decode cfg) st).1 := by
  intro data
  induction data with
  | nil => intro st h; exact h
  | cons b rest ih =>
      intro st h
      simp only [List.foldl_cons]
      apply ih
      by_cases hb : b = NEW_LINE
      · subst hb
        simp only [stepByte, if_pos rfl]
        cases parse_line decode st.1 cfg.empty_line_handling <;> simp
      · simp only [stepByte, if_neg hb, List.mem_append,
          List.mem_singleton]
        rintro (hc | hc)
        · exact h hc
        · exact hb hc.symm

theorem inputGo_eq_foldl {T J : Type} (decode : List Nat → Except J T)
    (cfg : NdjsonConfig) :
    ∀ (n : Nat) (data : List Nat), data.length ≤ n →
    ∀ (inQ : List Nat) (outQ : List (Except J T)),
    inputGo decode cfg inQ outQ data =
      data.foldl (stepByte decode cfg) (inQ, outQ) := by
  intro n
  induction n with
  | zero =>
      intro data hlen inQ outQ
      have : data = [] := List.length_eq_zero.mp (Nat.le_zero.mp hlen)
      subst this
      rw [inputGo]
      split
      next idx hidx => simp [index_of] at hidx
      next hidx => simp
  | succ n ih =>
      intro data hlen inQ outQ
      rw [inputGo]
      split
      next idx hidx =>
        obtain ⟨hdec, hnot⟩ := index_of_some_decomp hidx
        have hlt : idx < data.length := index_of_lt_length data NEW_LINE idx hidx
        have hdroplen : (data.drop (idx + 1)).length ≤ n := by
          simp only [List.length_drop]
          omega
        simp only []
        rw [ih (data.drop (idx + 1)) hdroplen]
        conv_rhs => rw [hdec]
        rw [List.foldl_append, List.foldl_cons,
          foldl_stepByte_no_newline decode cfg (data.take idx) inQ outQ hnot]
        have hnext :
            (if inQ.isEmpty then data.take idx else inQ ++ data.take idx) =
            inQ ++ data.take idx := by
          cases inQ <;> simp
        rw [hnext]
        simp only [stepByte, if_pos rfl]
        cases parse_line decode (inQ ++ data.take idx) cfg.empty_line_handling
          <;> rfl
      next hidx =>
        have := index_of_none hidx
        rw [foldl_stepByte_no_newline decode cfg data inQ outQ this]

/-- `input` equals a left fold of `stepByte` over the supplied bytes. -/
theorem input_eq_foldl {T J : Type} (decode : List Nat → Except J T)
    (e : NdjsonEngine T J) (data : List Nat) :
    e.input decode data =
      { e with
        in_queue := (data.foldl (stepByte decode e.config)
          (e.in_queue, e.out_queue)).1,
        out_queue := (data.foldl (stepByte decode e.config)
          (e.in_queue, e.out_queue)).2 } := by
  unfold NdjsonEngine.input
  rw [inputGo_eq_foldl decode e.config data.length data (le_refl _)]

/-- Feeding no bytes leaves the engine unchanged. -/
theorem input_nil {T J : Type} (decode : List Nat → Except J T)
    (e : NdjsonEngine T J) : e.input decode [] = e := by
  rw [input_eq_foldl]
  simp

/-- Feeding a concatenation equals feeding the parts in order. -/
theorem input_append {T J : Type} (decode : List Nat → Except J T)
    (e : NdjsonEngine T J) (a b : List Nat) :
    e.input decode (a ++ b) = (e.input decode a).input decode b := by
  rw [input_eq_foldl decode e (a ++ b), input_eq_foldl decode e a,
    input_eq_foldl decode (_ : NdjsonEngine T J) b]
  simp [List.foldl_append]

/-! ### Helper lemmas about `finalize` -/

/-- The empty rest is skipped under every downgraded policy. -/
theorem shouldIgnore_downgrade_nil (p : EmptyLineHandling) :
    shouldIgnore (downgradePolicy p) [] = true := by
  cases p <;> rfl

/-- `finalize` on an engine whose accumulation buffer is already empty is
the identity. -/
theorem finalize_empty_in_queue {T J : Type} (decode : List Nat → Except J T)
    (e : NdjsonEngine T J) (h : e.in_queue = []) : e.finalize decode = e := by
  obtain ⟨inq, outq, elh, pr⟩ := e
  simp only at h
  subst h
  cases pr <;> cases elh <;> rfl

/-- With `parse_rest` unset, `finalize` only clears the buffer. -/
theorem finalize_of_not_parse_rest {T J : Type}
    (decode : List Nat → Except J T) (e : NdjsonEngine T J)
    (h : e.config.parse_rest = false) :
    e.finalize decode = { e with in_queue := [] } := by
  unfold NdjsonEngine.finalize
  rw [h]
  simp

/-- With `parse_rest` set, the queue after `finalize` is governed by the
downgraded empty-line policy. -/
theorem finalize_out_queue_parse_rest {T J : Type}
    (decode : List Nat → Except J T) (e : NdjsonEngine T J)
    (h : e.config.parse_rest = true) :
    (e.finalize decode).out_queue =
      (if shouldIgnore (downgradePolicy e.config.empty_line_handling)
          e.in_queue
       then e.out_queue else e.out_queue ++ [decode e.in_queue]) := by
  unfold NdjsonEngine.finalize
  rw [h]
  simp only [parse_line]
  cases hsk : shouldIgnore (downgradePolicy e.config.empty_line_handling)
      e.in_queue <;> simp [hsk]

/-- The accumulation buffer is empty after `finalize`. -/
theorem finalize_in_queue {T J : Type} (decode : List Nat → Except J T)
    (e : NdjsonEngine T J) : (e.finalize decode).in_queue = [] := rfl

/-- `finalize` either leaves the queue alone or appends one outcome. -/
theorem finalize_out_queue_cases {T J : Type}
    (decode : List Nat → Except J T) (e : NdjsonEngine T J) :
    (e.finalize decode).out_queue = e.out_queue ∨
    ∃ item, (e.finalize decode).out_queue = e.out_queue ++ [item] := by
  unfold NdjsonEngine.finalize
  by_cases hp : e.config.parse_rest = true
  · rw [if_pos hp]
    cases hl : parse_line decode e.in_queue
        (downgradePolicy e.config.empty_line_handling) with
    | some item => right; exact ⟨item, rfl⟩
    | none => left; rfl
  · rw [if_neg hp]
    left
    rfl

/-- `pop` on an empty queue yields nothing and keeps the engine. -/
theorem pop_of_empty {T J : Type} (e : NdjsonEngine T J)
    (h : e.out_queue = []) : e.pop = (none, e) := by
  unfold NdjsonEngine.pop
  rw [h]

/-- `pop` on a non-empty queue dequeues its head. -/
theorem pop_of_cons {T J : Type} (e : NdjsonEngine T J) (r : Except J T)
    (qrest : List (Except J T)) (h : e.out_queue = r :: qrest) :
    e.pop = (some r, { e with out_queue := qrest }) := by
  unfold NdjsonEngine.pop
  rw [h]

/-! ### Claim theorems -/

/-- C1: For every fixed byte sequence and every way of splitting it into
chunks, feeding the chunks in order to the engine via `input` produces
exactly the same engine state — in particular the same queued outcomes in
the same order — as feeding the whole byte sequence as one chunk. -/
theorem chunked_input_eq_single_input {T J : Type}
    (decode : List Nat → Except J T) (e : NdjsonEngine T J)
    (chunks : List (List Nat)) :
    chunks.foldl (fun acc c => acc.input decode c) e =
      e.input decode chunks.flatten := by
  induction chunks generalizing e with
  | nil => simp [input_nil]
  | cons c cs ih =>
      simp only [List.foldl_cons, List.flatten_cons]
      rw [input_append]
      exact ih (e.input decode c)

/-- C6: `finalize` is idempotent: calling it twice in a row leaves exactly
the same engine state — and hence the same queued outcomes — as calling
it once. -/
theorem finalize_idempotent {T J : Type} (decode : List Nat → Except J T)
    (e : NdjsonEngine T J) :
    (e.finalize decode).finalize decode = e.finalize decode :=
  finalize_empty_in_queue decode (e.finalize decode) rfl

/-- C3 counterexample: with the rest-handling flag false, `finalize` is
not a complete no-op — on an engine holding the buffered partial line
"x", it clears the accumulation buffer. -/
theorem finalize_changes_buffer_counterexample :
    ¬ ((((NdjsonEngine.with_config Nat Nat NdjsonConfig.default).input
          decodeDigit [120]).finalize decodeDigit).in_queue =
        ((NdjsonEngine.with_config Nat Nat NdjsonConfig.default).input
          decodeDigit [120]).in_queue) := by
  rw [input_eq_foldl]
  decide

/-- C3 amended: with the rest-handling flag false, `finalize` enqueues
nothing and leaves the output queue (and configuration) unchanged, but
always clears the accumulation buffer. -/
theorem finalize_no_rest_handling {T J : Type}
    (decode : List Nat → Except J T) (e : NdjsonEngine T J)
    (h : e.config.parse_rest = false) :
    e.finalize decode = { e with in_queue := [] } :=
  finalize_of_not_parse_rest decode e h

theorem finalize_no_rest_handling_witness :
    (⟨[120], [], NdjsonConfig.default⟩ : NdjsonEngine Nat Nat).config.parse_rest
        = false ∧
    (⟨[120], [], NdjsonConfig.default⟩ : NdjsonEngine Nat Nat).finalize
        decodeDigit =
      { (⟨[120], [], NdjsonConfig.default⟩ : NdjsonEngine Nat Nat) with
        in_queue := [] } :=
  ⟨rfl, finalize_no_rest_handling decodeDigit _ rfl⟩

/-- C5: with the rest-handling flag true, `finalize` decides whether to
decode the accumulation buffer using the empty-line policy with
`ParseAlways` downgraded to `IgnoreEmpty`; an empty buffer enqueues
nothing under every configuration, a skipped buffer enqueues nothing, and
a non-skipped buffer enqueues exactly one outcome. -/
theorem finalize_rest_handling {T J : Type} (decode : List Nat → Except J T)
    (e : NdjsonEngine T J) (h : e.config.parse_rest = true) :
    (e.in_queue = [] → (e.finalize decode).out_queue = e.out_queue) ∧
    (shouldIgnore (downgradePolicy e.config.empty_line_handling) e.in_queue
        = true →
      (e.finalize decode).out_queue = e.out_queue) ∧
    (shouldIgnore (downgradePolicy e.config.empty_line_handling) e.in_queue
        = false →
      (e.finalize decode).out_queue = e.out_queue ++ [decode e.in_queue]) := by
  refine ⟨?_, ?_, ?_⟩
  · intro hin
    rw [finalize_out_queue_parse_rest decode e h, hin,
      shouldIgnore_downgrade_nil]
    simp
  · intro hsk
    rw [finalize_out_queue_parse_rest decode e h, hsk]
    simp
  · intro hsk
    rw [finalize_out_queue_parse_rest decode e h, hsk]
    simp

theorem finalize_rest_handling_witness :
    (⟨[52], [],
      NdjsonConfig.default.with_parse_rest true⟩ : NdjsonEngine Nat Nat).config.parse_rest
        = true ∧
    (shouldIgnore
        (downgradePolicy
          (⟨[52], [],
            NdjsonConfig.default.with_parse_rest true⟩ : NdjsonEngine Nat Nat).config.empty_line_handling)
        (⟨[52], [],
          NdjsonConfig.default.with_parse_rest true⟩ : NdjsonEngine Nat Nat).in_queue
        = false →
      ((⟨[52], [],
        NdjsonConfig.default.with_parse_rest true⟩ : NdjsonEngine Nat Nat).finalize
          decodeDigit).out_queue =
        [] ++ [decodeDigit [52]]) :=
  ⟨rfl, (finalize_rest_handling decodeDigit _ rfl).2.2⟩

/-- C4: a complete line candidate (the buffered rest plus the bytes up to
the next newline) is skipped iff: never under `ParseAlways`; iff it is
empty or exactly a single carriage return under `IgnoreEmpty`; iff it is
valid UTF-8 consisting only of whitespace characters under `IgnoreBlank`
(invalid text is not skipped). A non-skipped candidate is passed whole to
the decode collaborator and its outcome is enqueued. -/
theorem input_line_processing {T J : Type} (decode : List Nat → Except J T)
    (e : NdjsonEngine T J) (line : List Nat) (h10 : NEW_LINE ∉ line) :
    (e.input decode (line ++ [NEW_LINE]) =
      { e with
        in_queue := [],
        out_queue := e.out_queue ++
          (if shouldIgnore e.config.empty_line_handling (e.in_queue ++ line)
           then [] else [decode (e.in_queue ++ line)]) }) ∧
    (e.config.empty_line_handling = EmptyLineHandling.ParseAlways →
      shouldIgnore e.config.empty_line_handling (e.in_queue ++ line)
        = false) ∧
    (e.config.empty_line_handling = EmptyLineHandling.IgnoreEmpty →
      (shouldIgnore e.config.empty_line_handling (e.in_queue ++ line) = true ↔
        e.in_queue ++ line = [] ∨ e.in_queue ++ line = [13])) ∧
    (e.config.empty_line_handling = EmptyLineHandling.IgnoreBlank →
      (shouldIgnore e.config.empty_line_handling (e.in_queue ++ line) = true ↔
        ∃ chars, utf8Decode (e.in_queue ++ line) = some chars ∧
          ∀ c ∈ chars, isWhitespaceChar c = true)) := by
  refine ⟨?_, ?_, ?_, ?_⟩
  · rw [input_eq_foldl]
    rw [List.foldl_append,
      foldl_stepByte_no_newline decode e.config line e.in_queue e.out_queue h10]
    simp only [List.foldl_cons, List.foldl_nil, stepByte, if_pos rfl,
      parse_line]
    cases hsk : shouldIgnore e.config.empty_line_handling (e.in_queue ++ line)
      <;> simp
  · intro hc
    rw [hc]
    rfl
  · intro hc
    rw [hc]
    simp only [shouldIgnore, Bool.or_eq_true, List.isEmpty_iff, beq_iff_eq]
  · intro hc
    rw [hc]
    simp only [shouldIgnore, isBlankBytes, is_blank]
    cases hu : utf8Decode (e.in_queue ++ line) with
    | none => simp
    | some chars => simp [List.all_eq_true]

theorem input_line_processing_witness :
    NEW_LINE ∉ ([52] : List Nat) ∧
    ((⟨[], [], NdjsonConfig.default⟩ : NdjsonEngine Nat Nat).input decodeDigit
        ([52] ++ [NEW_LINE]) =
      { (⟨[], [], NdjsonConfig.default⟩ : NdjsonEngine Nat Nat) with
        in_queue := [],
        out_queue := [] ++
          (if shouldIgnore
              (⟨[], [], NdjsonConfig.default⟩ : NdjsonEngine Nat Nat).config.empty_line_handling
              ([] ++ [52])
           then [] else [decodeDigit ([] ++ [52])]) }) :=
  ⟨by decide, (input_line_processing decodeDigit _ [52] (by decide)).1⟩

/-- C9: the accumulation buffer never contains a newline byte: it is empty
at construction, `input` preserves newline-freeness of the buffer,
`finalize` empties it, and `pop` does not touch it. -/
theorem in_queue_never_holds_newline {T J : Type}
    (decode : List Nat → Except J T) (cfg : NdjsonConfig)
    (e : NdjsonEngine T J) (data : List Nat) :
    NEW_LINE ∉ (NdjsonEngine.with_config T J cfg).in_queue ∧
    NEW_LINE ∉ (NdjsonEngine.new T J).in_queue ∧
    (NEW_LINE ∉ e.in_queue → NEW_LINE ∉ (e.input decode data).in_queue) ∧
    NEW_LINE ∉ (e.finalize decode).in_queue ∧
    (e.pop).2.in_queue = e.in_queue := by
  refine ⟨by simp [NdjsonEngine.with_config], by simp [NdjsonEngine.new,
    NdjsonEngine.with_config], ?_, ?_, ?_⟩
  · intro h
    rw [input_eq_foldl]
    exact foldl_stepByte_preserves_no_newline decode e.config data
      (e.in_queue, e.out_queue) h
  · rw [finalize_in_queue]
    simp
  · unfold NdjsonEngine.pop
    split <;> rfl

theorem in_queue_never_holds_newline_witness :
    NEW_LINE ∉ (⟨[], [], NdjsonConfig.default⟩ : NdjsonEngine Nat Nat).in_queue ∧
    NEW_LINE ∉ ((⟨[], [], NdjsonConfig.default⟩ : NdjsonEngine Nat Nat).input
      decodeDigit [52, 10, 52]).in_queue :=
  ⟨by decide,
    (in_queue_never_holds_newline decodeDigit NdjsonConfig.default _
      [52, 10, 52]).2.2.1 (by decide)⟩

/-- C10: the default configuration has empty-line policy `ParseAlways` and
the rest-handling flag disabled; a default-configured engine feeds an
empty line whole to the decode collaborator (enqueuing its error when the
collaborator rejects empty input, as the JSON decoder does), and its
`finalize` enqueues nothing. -/
theorem default_config_behavior {T J : Type} (decode : List Nat → Except J T)
    (e : NdjsonEngine T J) (j : J) (hcfg : e.config = NdjsonConfig.default)
    (hin : e.in_queue = []) (hdec : decode [] = Except.error j) :
    NdjsonConfig.default = ⟨EmptyLineHandling.ParseAlways, false⟩ ∧
    NdjsonEngine.new T J = NdjsonEngine.with_config T J NdjsonConfig.default ∧
    (e.input decode [NEW_LINE]).out_queue = e.out_queue ++ [Except.error j] ∧
    (e.finalize decode).out_queue = e.out_queue := by
  refine ⟨rfl, rfl, ?_, ?_⟩
  · rw [input_eq_foldl]
    simp only [List.foldl_cons, List.foldl_nil, stepByte, if_pos rfl,
      parse_line, hin, hcfg, NdjsonConfig.default, shouldIgnore]
    simp [hdec]
  · rw [finalize_of_not_parse_rest decode e (by rw [hcfg]; rfl)]

theorem default_config_behavior_witness :
    (⟨[], [], NdjsonConfig.default⟩ : NdjsonEngine Nat Nat).config
        = NdjsonConfig.default ∧
    (⟨[], [], NdjsonConfig.default⟩ : NdjsonEngine Nat Nat).in_queue = [] ∧
    decodeDigit [] = Except.error 0 ∧
    ((⟨[], [], NdjsonConfig.default⟩ : NdjsonEngine Nat Nat).input decodeDigit
        [NEW_LINE]).out_queue = [] ++ [Except.error 0] :=
  ⟨rfl, rfl, rfl,
    (default_config_behavior decodeDigit _ 0 rfl rfl rfl).2.2.1⟩

/-- C7: when the upstream source yields a transport error, both fallible
adapters surface it as an input error on that very call, consuming only
that upstream item: the engine — its accumulation buffer and its queued
outcomes — is returned unchanged, so decoding resumes on the next
successful chunk exactly as if the error had not occurred. (The upstream
is only consulted when the queue is empty, hence the hypothesis.) -/
theorem input_error_passthrough {T J E : Type}
    (decode : List Nat → Except J T) (eng : NdjsonEngine T J) (err : E)
    (rest : List (Option (Except E (List Nat))))
    (rest2 : List (Except E (List Nat))) (calls : Nat)
    (h : eng.out_queue = []) :
    fallibleIterNext decode eng (some (Except.error err) :: rest) calls
        false =
      (some (Except.error (FallibleNdjsonError.InputError err)), eng,
        rest, calls + 1, false) ∧
    falliblePollNext decode eng (Except.error err :: rest2) =
      (some (Except.error (FallibleNdjsonError.InputError err)), eng,
        rest2) := by
  constructor
  · rw [fallibleIterNext, pop_of_empty eng h]
    rfl
  · rw [falliblePollNext, pop_of_empty eng h]

theorem input_error_passthrough_witness :
    (⟨[], [], NdjsonConfig.default⟩ : NdjsonEngine Nat Nat).out_queue
        = [] ∧
    fallibleIterNext decodeDigit
        (⟨[], [], NdjsonConfig.default⟩ : NdjsonEngine Nat Nat)
        ([some (Except.error 7)] : List (Option (Except Nat (List Nat))))
        0 false =
      (some (Except.error (FallibleNdjsonError.InputError 7)),
        ⟨[], [], NdjsonConfig.default⟩, [], 0 + 1, false) :=
  ⟨rfl, (input_error_passthrough decodeDigit _ 7 [] [] 0 rfl).1⟩

/-- C8: once the pull adapter's fused upstream is latched done, a call to
`next` never consumes a scripted upstream response and never changes the
call count (the upstream is not re-queried, even a non-idempotent one);
if additionally the engine's queues are empty — as they are after the
exhaustion-observing call — the call returns exhaustion with the entire
state unchanged; and the call that observes the upstream exhaustion
signal latches the done flag and leaves both engine queues empty. -/
theorem upstream_exhaustion_latched {T J E : Type}
    (decode : List Nat → Except J T) (eng : NdjsonEngine T J)
    (resp rest : List (Option (Except E (List Nat)))) (calls : Nat) :
    (fallibleIterNext decode eng resp calls true).2.2 =
      (resp, calls, true) ∧
    (eng.out_queue = [] → eng.in_queue = [] →
      fallibleIterNext decode eng resp calls true =
        (none, eng, resp, calls, true)) ∧
    (eng.out_queue = [] →
      (fallibleIterNext decode eng (none :: rest) calls false).2.2.1
          = rest ∧
      (fallibleIterNext decode eng (none :: rest) calls false).2.1.in_queue
          = [] ∧
      (fallibleIterNext decode eng (none :: rest) calls false).2.1.out_queue
          = [] ∧
      (fallibleIterNext decode eng (none :: rest) calls false).2.2.2.2
          = true) := by
  refine ⟨?_, ?_, ?_⟩
  · rw [fallibleIterNext]
    cases hq : eng.out_queue with
    | nil =>
        rw [pop_of_empty eng hq]
        dsimp only
        cases hq2 : (NdjsonEngine.finalize decode eng).out_queue with
        | nil =>
            rw [pop_of_empty _ hq2]
            simp
        | cons r qrest =>
            rw [pop_of_cons _ r qrest hq2]
            simp
    | cons r qrest =>
        rw [pop_of_cons eng r qrest hq]
  · intro hq hin
    rw [fallibleIterNext, pop_of_empty eng hq]
    dsimp only
    rw [finalize_empty_in_queue decode eng hin, pop_of_empty eng hq]
    simp
  · intro hq
    rw [fallibleIterNext, pop_of_empty eng hq]
    dsimp only
    rcases finalize_out_queue_cases decode eng with hcase | ⟨item, hcase⟩
    · have hfq : (NdjsonEngine.finalize decode eng).out_queue = [] := by
        rw [hcase, hq]
      rw [pop_of_empty _ hfq]
      refine ⟨by simp, by simp [finalize_in_queue], by simp [hfq], by simp⟩
    · have hfq : (NdjsonEngine.finalize decode eng).out_queue = [item] := by
        rw [hcase, hq]
        rfl
      rw [pop_of_cons _ item [] hfq]
      refine ⟨by simp, by simp [finalize_in_queue], by simp, by simp⟩

theorem upstream_exhaustion_latched_witness :
    (⟨[], [], NdjsonConfig.default⟩ : NdjsonEngine Nat Nat).out_queue
        = [] ∧
    (⟨[], [], NdjsonConfig.default⟩ : NdjsonEngine Nat Nat).in_queue
        = [] ∧
    fallibleIterNext decodeDigit
        (⟨[], [], NdjsonConfig.default⟩ : NdjsonEngine Nat Nat)
        ([some (Except.ok [52])] : List (Option (Except Nat (List Nat))))
        3 true =
      (none, ⟨[], [], NdjsonConfig.default⟩, [some (Except.ok [52])], 3,
        true) :=
  ⟨rfl, rfl,
    (upstream_exhaustion_latched decodeDigit _ [some (Except.ok [52])] []
      3).2.1 rfl rfl⟩

/-- C2 (divergence evidence): with rest handling enabled and upstream
yielding the single chunk "4" and then exhausting, one call to the pull
adapter yields the decoded rest, while the suspend (stream) adapter —
whose `poll_next` returns ready-none on upstream completion without
calling `finalize` — reports exhaustion and never yields the record, so
the two adapters do not have identical decoding semantics on upstream
exhaustion. -/
theorem stream_drops_rest_on_exhaustion :
    (fallibleIterNext decodeDigit
        (NdjsonEngine.with_config Nat Nat
          (NdjsonConfig.default.with_parse_rest true))
        ([some (Except.ok [52]), none] : List (Option (Except Nat (List Nat))))
        0 false).1 = some (Except.ok 4) ∧
    (falliblePollNext decodeDigit
        (NdjsonEngine.with_config Nat Nat
          (NdjsonConfig.default.with_parse_rest true))
        ([Except.ok [52]] : List (Except Nat (List Nat)))).1 = none := by
  have h1 : (NdjsonEngine.with_config Nat Nat
      (NdjsonConfig.default.with_parse_rest true)).input decodeDigit [52] =
      ⟨[52], [], NdjsonConfig.default.with_parse_rest true⟩ := by
    rw [input_eq_foldl]
    rfl
  constructor
  · rw [fallibleIterNext, pop_of_empty _ rfl]
    show (fallibleIterNext decodeDigit
        ((NdjsonEngine.with_config Nat Nat
          (NdjsonConfig.default.with_parse_rest true)).input decodeDigit
            [52])
        ([none] : List (Option (Except Nat (List Nat)))) 1 false).1
      = some (Except.ok 4)
    rw [h1, fallibleIterNext, pop_of_empty _ rfl]
    rfl
  · rw [falliblePollNext, pop_of_empty _ rfl]
    show (falliblePollNext decodeDigit
        ((NdjsonEngine.with_config Nat Nat
          (NdjsonConfig.default.with_parse_rest true)).input decodeDigit
            [52])
        ([] : List (Except Nat (List Nat)))).1 = none
    rw [h1, falliblePollNext, pop_of_empty _ rfl]

end NdjsonStream
